import Mathlib

/-!
Verification development for the `rust-todo` task manager.

The definitions below are a shallow embedding of the Rust sources:
`src/todo.rs` (data model and store), `src/handlers.rs` (the CLI command
handlers that touch the store) and `src/tui/mod.rs` (the interactive
application: modal input controller, selection tracking, filtering).

Modelling conventions:
* timestamps are `Int` seconds since the epoch (`chrono::DateTime<Utc>`
  at second granularity; every duration the program inspects is measured
  in whole seconds);
* `u32`/`u8` values are `Nat` (no arithmetic in the program approaches
  the wrap-around range along the properties proved here);
* the text buffer is a `List Char` with a separate *byte* cursor, so that
  the byte-indexed `String::insert` / `String::remove` calls can be
  modelled exactly, panics included (`Option`, `none` = panic);
* persistence (`save_todos`) is an external effect with no bearing on the
  in-memory state and is modelled as a no-op.
-/

/-! ## Data model (`src/todo.rs`) -/

/-- A single todo item (struct `Todo`, `src/todo.rs`). -/
structure Todo where
  id : Nat
  description : String
  details : Option String
  completed : Bool
  created_at : Int
  completed_at : Option Int
  due_date : Option Int
  priority : Option Nat
deriving DecidableEq, Repr

/-- `Todo::new` -/
def Todo.new (id : Nat) (description : String) (priority : Option Nat)
    (now : Int) : Todo :=
  { id := id
    description := description
    details := none
    completed := false
    created_at := now
    completed_at := none
    due_date := none
    priority := priority }

/-- `Todo::complete` -/
def Todo.complete (t : Todo) (now : Int) : Todo :=
  { t with completed := true, completed_at := some now }

/-- `chrono::Duration::num_hours` on a whole-second duration: the number of
whole hours, truncated toward zero (Rust `i64` division). -/
def numHours (secs : Int) : Int :=
  secs.tdiv 3600

/-- `Todo::is_overdue` -/
def Todo.is_overdue (t : Todo) (now : Int) : Bool :=
  if t.completed then false
  else
    match t.due_date with
    | some due => due < now
    | none => false

/-- `Todo::is_due_soon` -/
def Todo.is_due_soon (t : Todo) (now : Int) : Bool :=
  if t.completed || t.is_overdue now then false
  else
    match t.due_date with
    | some due =>
        let hours_until_due := numHours (due - now)
        decide (0 ≤ hours_until_due) && decide (hours_until_due ≤ 24)
    | none => false

/-- The UTC calendar day an instant falls on (used by the `DueToday`
filter: `date_naive()` equality is equality of floor-of-day indices). -/
def dayNumber (x : Int) : Int :=
  x.fdiv 86400

/-- Modelled from the spec: the filter tags of the interactive
application.  `src/tui/mod.rs` stores and matches on eleven
`TodoFilter` variants, but the `TodoFilter` enum present in
`src/todo.rs` still has only `All` / `Completed` / `Pending`; the other
eight variants exist only at their use sites.  The enum is reproduced
here with all eleven variants, following spec section 4.2. -/
inductive TodoFilter where
  | all
  | completed
  | pending
  | highPriority
  | mediumPriority
  | lowPriority
  | noPriority
  | overdue
  | dueToday
  | dueSoon
  | hasDueDate
deriving DecidableEq, Repr

/-- The todo store (struct `TodoList`, `src/todo.rs`). -/
structure TodoList where
  todos : List Todo
  next_id : Nat
deriving DecidableEq, Repr

/-- `TodoList::new` -/
def TodoList.new : TodoList :=
  { todos := [], next_id := 1 }

/-- `TodoList::add_todo`: appends a todo carrying `next_id`, increments the
counter, returns the new id.  (No validation happens here; the emptiness
check lives in the CLI handler `handle_add`.) -/
def TodoList.add_todo (l : TodoList) (description : String)
    (priority : Option Nat) (now : Int) : Nat × TodoList :=
  let todo := Todo.new l.next_id description priority now
  (todo.id, { todos := l.todos ++ [todo], next_id := l.next_id + 1 })

/-- `TodoList::remove_todo`: `retain(|todo| todo.id != id)`, returning
whether the length shrank. -/
def TodoList.remove_todo (l : TodoList) (id : Nat) : Bool × TodoList :=
  let kept := l.todos.filter (fun t => t.id != id)
  (decide (kept.length < l.todos.length), { l with todos := kept })

/-- `TodoList::filter_todos`.  The three arms present in `src/todo.rs`
are `all` / `completed` / `pending`.  Modelled from the spec: the
remaining eight arms (used by the TUI but absent from `src/todo.rs`,
whose enum predates them) follow spec section 4.2, reusing the due-date
predicates `Todo::is_overdue` and `Todo::is_due_soon` from
`src/todo.rs`. -/
def TodoList.filter_todos (l : TodoList) (filter : TodoFilter)
    (now : Int) : List Todo :=
  l.todos.filter (fun t =>
    match filter with
    | .all => true
    | .completed => t.completed
    | .pending => !t.completed
    | .highPriority => t.priority == some 4 || t.priority == some 5
    | .mediumPriority => t.priority == some 2 || t.priority == some 3
    | .lowPriority => t.priority == some 1
    | .noPriority => t.priority == none
    | .overdue => t.is_overdue now
    | .dueToday =>
        !t.completed &&
          (match t.due_date with
           | some d => dayNumber d == dayNumber now
           | none => false)
    | .dueSoon => t.is_due_soon now
    | .hasDueDate => t.due_date.isSome)

/-! ## Character/string helpers (Rust `str` operations) -/

/-- Rust `char::is_whitespace`: the Unicode `White_Space` property —
U+0009..U+000D, U+0020, U+0085 (NEL), U+00A0 (NBSP), U+1680 (Ogham
space mark), U+2000..U+200A, U+2028, U+2029, U+202F (narrow NBSP),
U+205F (medium mathematical space) and U+3000 (ideographic space). -/
def isWS (c : Char) : Bool :=
  let n := c.toNat
  (0x9 ≤ n && n ≤ 0xD) || n == 0x20 || n == 0x85 || n == 0xA0 ||
    n == 0x1680 || (0x2000 ≤ n && n ≤ 0x200A) || n == 0x2028 ||
    n == 0x2029 || n == 0x202F || n == 0x205F || n == 0x3000

/-- Rust `str::trim` on an exploded string: strips Unicode
`White_Space` (via `isWS`) from both ends. -/
def trimChars (l : List Char) : List Char :=
  ((l.dropWhile isWS).reverse.dropWhile isWS).reverse

/-- Digit run of `str::parse::<u8>` (after the optional sign). -/
def parseU8Digits (l : List Char) : Option Nat :=
  if l = [] then none
  else if l.all (·.isDigit) then
    let v := l.foldl (fun acc c => acc * 10 + (c.toNat - '0'.toNat)) 0
    if v ≤ 255 then some v else none
  else none

/-- Rust `str::parse::<u8>`: optional leading `+`, one or more ASCII
digits, value at most 255; anything else is `Err`. -/
def parseU8 (l : List Char) : Option Nat :=
  match l with
  | '+' :: rest => parseU8Digits rest
  | _ => parseU8Digits l

/-- `str::rfind(':')` — index of the last colon, as a character index
(the colon is one byte wide, and the program only slices at it, so the
byte/character distinction is immaterial for the surrounding code). -/
def lastColonIdx (l : List Char) : Option Nat :=
  match l.reverse.findIdx? (· == ':') with
  | some k => some (l.length - 1 - k)
  | none => none

/-- Rust `str::to_lowercase`, character by character (the inputs the
program compares after lowercasing are ASCII keywords). -/
def lowerChars (l : List Char) : List Char :=
  l.map Char.toLower

/-! ## Calendar arithmetic (`chrono` date conversions) -/

/-- Proleptic-Gregorian leap year. -/
def isLeapYear (y : Int) : Bool :=
  (y % 4 == 0 && y % 100 != 0) || y % 400 == 0

/-- Length of a calendar month. -/
def daysInMonth (y : Int) (m : Nat) : Nat :=
  match m with
  | 1 => 31 | 3 => 31 | 5 => 31 | 7 => 31 | 8 => 31 | 10 => 31 | 12 => 31
  | 4 => 30 | 6 => 30 | 9 => 30 | 11 => 30
  | 2 => if isLeapYear y then 29 else 28
  | _ => 0

/-- Days since 1970-01-01 of a civil date (the standard era-based
conversion `chrono` performs internally). -/
def daysFromCivil (y : Int) (m d : Nat) : Int :=
  let y' : Int := y - (if m ≤ 2 then 1 else 0)
  let era : Int := y'.fdiv 400
  let yoe : Nat := (y' - era * 400).toNat
  let doy : Nat := (153 * (if m > 2 then m - 3 else m + 9) + 2) / 5 + d - 1
  let doe : Nat := yoe * 365 + yoe / 4 - yoe / 100 + doy
  era * 146097 + (doe : Int) - 719468

/-- Civil date of a day count since 1970-01-01 (inverse of
`daysFromCivil`, used when the app pre-fills the due-date buffer). -/
def civilFromDays (z : Int) : Int × Nat × Nat :=
  let z' := z + 719468
  let era : Int := z'.fdiv 146097
  let doe : Nat := (z' - era * 146097).toNat
  let yoe : Nat := (doe - doe / 1460 + doe / 36524 - doe / 146096) / 365
  let doy : Nat := doe - (365 * yoe + yoe / 4 - yoe / 100)
  let mp : Nat := (5 * doy + 2) / 153
  let d : Nat := doy - (153 * mp + 2) / 5 + 1
  let m : Nat := if mp < 10 then mp + 3 else mp - 9
  (era * 400 + (yoe : Int) + (if m ≤ 2 then 1 else 0), m, d)

/-- Zero-pad a number to two digits. -/
def pad2 (n : Nat) : String :=
  if n < 10 then "0" ++ toString n else toString n

/-- Zero-pad a number to four digits. -/
def pad4 (n : Nat) : String :=
  if n < 10 then "000" ++ toString n
  else if n < 100 then "00" ++ toString n
  else if n < 1000 then "0" ++ toString n
  else toString n

/-- `DateTime::format("%Y-%m-%d")` of a timestamp (UTC). -/
def formatYMD (ts : Int) : String :=
  match civilFromDays (ts.fdiv 86400) with
  | (y, m, d) =>
      (if y < 0 then "-" ++ pad4 (-y).toNat else pad4 y.toNat) ++ "-" ++
        pad2 m ++ "-" ++ pad2 d

/-- `NaiveDate::format` of a parsed date, as interpolated into the
status message `format!("Due date set to \x7b\x7d", date)`. -/
def formatDate (y : Int) (m d : Nat) : String :=
  (if y < 0 then "-" ++ pad4 (-y).toNat else pad4 y.toNat) ++ "-" ++
    pad2 m ++ "-" ++ pad2 d

/-- Numeric value of a digit run. -/
def digitsVal (l : List Char) : Nat :=
  l.foldl (fun acc c => acc * 10 + (c.toNat - '0'.toNat)) 0

/-- `chrono::format::scan::number`: the longest leading run of ASCII
digits, capped at `max` characters, together with the rest of the
input. -/
def takeDigits (max : Nat) (l : List Char) : List Char × List Char :=
  match max, l with
  | 0, _ => ([], l)
  | _, [] => ([], [])
  | m + 1, c :: rest =>
      if c.isDigit then
        let p := takeDigits m rest
        (c :: p.1, p.2)
      else ([], c :: rest)

/-- The leading-whitespace skip chrono performs before every numeric
field (`s.trim_start()`, Unicode `White_Space`). -/
def skipWS (l : List Char) : List Char :=
  l.dropWhile isWS

/-- `NaiveDate::parse_from_str(input, "%Y-%m-%d")`, as chrono parses it:
before each numeric field leading whitespace is skipped; the year is
signed — with an explicit `+`/`-` it may have any number of digits,
without a sign at most four; each `-` literal must match exactly (no
whitespace skip); month and day are unsigned runs of at most two
digits; the whole input must be consumed; and the triple must denote a
real calendar date within chrono's year range -262144..=262143
(a year overflowing that range — or `i64` during scanning — fails
either in `scan::number` or in `from_ymd_opt`, a parse error both
ways). -/
def parseYMD (l : List Char) : Option (Int × Nat × Nat) :=
  let s1 := skipWS l
  let yp :=
    match s1 with
    | '-' :: r =>
        let p := takeDigits r.length r
        ((-1 : Int), p.1, p.2)
    | '+' :: r =>
        let p := takeDigits r.length r
        ((1 : Int), p.1, p.2)
    | _ =>
        let p := takeDigits 4 s1
        ((1 : Int), p.1, p.2)
  if yp.2.1 = [] then none
  else
    match yp.2.2 with
    | '-' :: s3 =>
        let mp := takeDigits 2 (skipWS s3)
        if mp.1 = [] then none
        else
          match mp.2 with
          | '-' :: s5 =>
              let dp := takeDigits 2 (skipWS s5)
              if dp.1 = [] then none
              else if dp.2 ≠ [] then none
              else
                let y : Int := yp.1 * digitsVal yp.2.1
                let m := digitsVal mp.1
                let d := digitsVal dp.1
                if -262144 ≤ y ∧ y ≤ 262143 ∧ 1 ≤ m ∧ m ≤ 12 ∧
                    1 ≤ d ∧ d ≤ daysInMonth y m then
                  some (y, m, d)
                else none
          | _ => none
    | _ => none

/-- `NaiveDate::and_hms_opt(23, 59, 59)` lifted to a UTC timestamp (the
due-date mode stores the parsed date at one second before midnight). -/
def dateToTimestamp (y : Int) (m d : Nat) : Int :=
  daysFromCivil y m d * 86400 + 86399

/-! ## Store operation sequences and CLI handlers (`src/handlers.rs`) -/

/-- A store-level mutation, for stating lifetime invariants. -/
inductive StoreOp where
  | add (description : String) (priority : Option Nat) (now : Int)
  | remove (id : Nat)
deriving DecidableEq, Repr

/-- Apply one store operation. -/
def applyOp (l : TodoList) (op : StoreOp) : TodoList :=
  match op with
  | .add d p now => (l.add_todo d p now).2
  | .remove id => (l.remove_todo id).2

/-- Apply a sequence of store operations, oldest first. -/
def applyOps (l : TodoList) (ops : List StoreOp) : TodoList :=
  ops.foldl applyOp l

/-- The ids handed back by the `add` operations of a sequence, in
execution order. -/
def addTrace (l : TodoList) : List StoreOp → List Nat
  | [] => []
  | .add d p now :: ops =>
      (l.add_todo d p now).1 :: addTrace (applyOp l (.add d p now)) ops
  | .remove id :: ops => addTrace (applyOp l (.remove id)) ops

/-- `handle_add` (`src/handlers.rs`): rejects a whitespace-only
description before touching the store, otherwise delegates to
`TodoList::add_todo` and saves. -/
def handle_add (l : TodoList) (description : String) (priority : Option Nat)
    (now : Int) : Except String (Nat × TodoList) :=
  if trimChars description.data = [] then
    .error "Todo description cannot be empty"
  else
    .ok (l.add_todo description priority now)

/-- `find_todo_mut` followed by `complete` on the found todo, as
`handle_complete` does (a todo that is already completed is left as
is). -/
def completeFirst (now : Int) (id : Nat) : List Todo → List Todo
  | [] => []
  | t :: ts =>
      if t.id = id then
        (if t.completed then t else t.complete now) :: ts
      else t :: completeFirst now id ts

/-- `handle_complete` (`src/handlers.rs`): completing a missing id is an
error; otherwise the first matching todo is completed in place. -/
def handle_complete (l : TodoList) (id : Nat) (now : Int) :
    Except String TodoList :=
  if l.todos.any (fun t => t.id == id) then
    .ok { l with todos := completeFirst now id l.todos }
  else
    .error "not found"

/-- The mutation performed by `handle_clear` (`src/handlers.rs`):
`retain(|todo| !todo.completed)`. -/
def clearCompleted (l : TodoList) : TodoList :=
  { l with todos := l.todos.filter (fun t => !t.completed) }

/-! ## The interactive application (`src/tui/mod.rs`) -/

/-- Input modes of the TUI (enum `InputMode`). -/
inductive InputMode where
  | normal
  | insert
  | editing
  | editingDetails
  | editingDueDate
  | settingPriority
deriving DecidableEq, Repr

/-- The key events the application distinguishes (`crossterm` key codes
as matched by the handlers; `ctrlC` stands for `Char('c')` with the
CONTROL modifier held). -/
inductive Key where
  | enter
  | esc
  | backspace
  | left
  | right
  | down
  | up
  | char (c : Char)
  | ctrlC
deriving DecidableEq, Repr

/-- The TUI session state (struct `App`); the render-only `theme` field
is omitted. -/
structure App where
  todos : TodoList
  input_mode : InputMode
  input : List Char
  cursor_position : Nat
  selected_index : Option Nat
  filter : TodoFilter
  status_message : Option String
  should_quit : Bool
  show_help : Bool
  show_details : Bool
deriving DecidableEq, Repr

/-- `App::new` on a freshly loaded store. -/
def App.new (todos : TodoList) : App :=
  { todos := todos
    input_mode := .normal
    input := []
    cursor_position := 0
    selected_index := if todos.todos.isEmpty then none else some 0
    filter := .all
    status_message := some "Welcome! Press 'h' for help"
    should_quit := false
    show_help := false
    show_details := false }

/-- UTF-8 byte length of the buffer (`String::len`). -/
def byteLen (l : List Char) : Nat :=
  (l.map Char.utf8Size).sum

/-- `String::insert(pos, c)` with `pos` a byte offset: `none` when `pos`
is out of bounds or not on a character boundary (Rust panics there). -/
def insertAtByte (l : List Char) (pos : Nat) (c : Char) :
    Option (List Char) :=
  if pos = 0 then some (c :: l)
  else
    match l with
    | [] => none
    | x :: xs =>
        if pos < x.utf8Size then none
        else (insertAtByte xs (pos - x.utf8Size) c).map (x :: ·)

/-- `String::remove(pos)` with `pos` a byte offset: removes the
character starting at `pos`; `none` when `pos` is out of bounds or not
on a character boundary (Rust panics there). -/
def removeAtByte (l : List Char) (pos : Nat) : Option (List Char) :=
  match l with
  | [] => none
  | x :: xs =>
      if pos = 0 then some xs
      else if pos < x.utf8Size then none
      else (removeAtByte xs (pos - x.utf8Size)).map (x :: ·)

/-- In-place update of one list element (`self.todos.todos[idx].f = v`). -/
def modifyAt {α : Type} (l : List α) (i : Nat) (f : α → α) : List α :=
  match l, i with
  | [], _ => []
  | x :: xs, 0 => f x :: xs
  | x :: xs, i + 1 => x :: modifyAt xs i f

/-- `App::move_selection` -/
def App.move_selection (a : App) (delta : Int) : App :=
  if a.todos.todos = [] then a
  else
    let len := a.todos.todos.length
    match a.selected_index with
    | some current =>
        let new_index :=
          if delta > 0 then min (current + delta.toNat) (len - 1)
          else current - delta.natAbs
        { a with selected_index := some new_index }
    | none => { a with selected_index := some 0 }

/-- `App::move_to_top` -/
def App.move_to_top (a : App) : App :=
  if a.todos.todos = [] then a else { a with selected_index := some 0 }

/-- `App::move_to_bottom` -/
def App.move_to_bottom (a : App) : App :=
  if a.todos.todos = [] then a
  else { a with selected_index := some (a.todos.todos.length - 1) }

/-- `App::toggle_complete` -/
def App.toggle_complete (a : App) (now : Int) : App :=
  match a.selected_index with
  | none => a
  | some idx =>
      match a.todos.todos.get? idx with
      | none => a
      | some t =>
          if t.completed then
            { a with
              todos := { a.todos with
                todos := modifyAt a.todos.todos idx
                  (fun t => { t with completed := false, completed_at := none }) }
              status_message := some "Todo marked as pending" }
          else
            { a with
              todos := { a.todos with
                todos := modifyAt a.todos.todos idx (fun t => t.complete now) }
              status_message := some "Todo completed!" }

/-- `App::delete_selected` -/
def App.delete_selected (a : App) : App :=
  match a.selected_index with
  | none => a
  | some idx =>
      match a.todos.todos.get? idx with
      | none => a
      | some t =>
          let removal := a.todos.remove_todo t.id
          if removal.1 then
            let a' := { a with
              todos := removal.2
              status_message := some ("Deleted: " ++ t.description) }
            if removal.2.todos = [] then { a' with selected_index := none }
            else if removal.2.todos.length ≤ idx then
              { a' with selected_index := some (removal.2.todos.length - 1) }
            else a'
          else a

/-- `App::start_editing` -/
def App.start_editing (a : App) : App :=
  match a.selected_index with
  | none => a
  | some idx =>
      match a.todos.todos.get? idx with
      | none => a
      | some t =>
          { a with
            input := t.description.data
            cursor_position := byteLen t.description.data
            input_mode := .editing
            status_message := some "Editing todo title" }

/-- `App::start_editing_details` -/
def App.start_editing_details (a : App) : App :=
  match a.selected_index with
  | none => { a with status_message := some "No todo selected" }
  | some idx =>
      match a.todos.todos.get? idx with
      | none => a
      | some t =>
          let existing := (t.details.getD "").data
          { a with
            input := existing
            cursor_position := byteLen existing
            input_mode := .editingDetails
            status_message :=
              some "Editing details (Enter to save, empty to clear)" }

/-- `App::prompt_due_date` -/
def App.prompt_due_date (a : App) : App :=
  match a.selected_index with
  | none => { a with status_message := some "No todo selected" }
  | some idx =>
      match a.todos.todos.get? idx with
      | none => a
      | some t =>
          let existing :=
            match t.due_date with
            | some due => (formatYMD due).data
            | none => []
          { a with
            input := existing
            cursor_position := byteLen existing
            input_mode := .editingDueDate
            status_message := some
              "Enter due date (today, tomorrow, YYYY-MM-DD, or empty to clear)" }

/-- `App::prompt_priority` -/
def App.prompt_priority (a : App) : App :=
  if a.selected_index.isSome then
    { a with
      input_mode := .settingPriority
      status_message := some "Enter priority (1-5) or 0 to clear" }
  else { a with status_message := some "No todo selected" }

/-- `App::get_filter_name` -/
def App.get_filter_name (a : App) : String :=
  match a.filter with
  | .all => "All Tasks"
  | .completed => "Completed"
  | .pending => "Pending"
  | .highPriority => "High Priority (4-5)"
  | .mediumPriority => "Medium Priority (2-3)"
  | .lowPriority => "Low Priority (1)"
  | .noPriority => "No Priority"
  | .overdue => "Overdue"
  | .dueToday => "Due Today"
  | .dueSoon => "Due Soon (7 days)"
  | .hasDueDate => "Has Due Date"

/-- Set the filter and report it, as the digit keys of normal mode do. -/
def App.set_filter (a : App) (f : TodoFilter) : App :=
  let a' := { a with filter := f }
  { a' with status_message := some ("Filter: " ++ a'.get_filter_name) }

/-- `App::cycle_filter` -/
def App.cycle_filter (a : App) : App :=
  let next : TodoFilter :=
    match a.filter with
    | .all => .pending
    | .pending => .completed
    | .completed => .highPriority
    | .highPriority => .mediumPriority
    | .mediumPriority => .lowPriority
    | .lowPriority => .noPriority
    | .noPriority => .overdue
    | .overdue => .dueToday
    | .dueToday => .dueSoon
    | .dueSoon => .hasDueDate
    | .hasDueDate => .all
  let a' := { a with filter := next }
  { a' with status_message := some ("Filter: " ++ a'.get_filter_name) }

/-- The description/priority split performed by the Enter branch of
`handle_insert_mode`: an optional trailing `:N` shorthand (N parsed as
`u8`, in 1..=5) is stripped; otherwise the raw input is kept verbatim. -/
def parseCommit (input : List Char) : String × Option Nat :=
  match lastColonIdx input with
  | some pos =>
      let desc := trimChars (input.take pos)
      let priority_str := trimChars (input.drop (pos + 1))
      match parseU8 priority_str with
      | some p =>
          if 1 ≤ p ∧ p ≤ 5 then (String.mk desc, some p)
          else (String.mk input, none)
      | none => (String.mk input, none)
  | none => (String.mk input, none)

/-- `App::handle_insert_mode`; `none` models a panic inside a byte-indexed
buffer operation. -/
def App.handle_insert_mode (a : App) (k : Key) (now : Int) : Option App :=
  match k with
  | .enter =>
      if trimChars a.input = [] then some a
      else
        let dp := parseCommit a.input
        let todos' := (a.todos.add_todo dp.1 dp.2 now).2
        let msg :=
          match dp.2 with
          | some p => "Added: " ++ dp.1 ++ " (priority " ++ toString p ++ ")"
          | none => "Added: " ++ dp.1
        let a' := { a with
          todos := todos'
          status_message := some msg
          input := []
          cursor_position := 0
          input_mode := .normal }
        some (if todos'.todos = [] then a'
          else { a' with selected_index := some (todos'.todos.length - 1) })
  | .esc =>
      some { a with
        input := []
        cursor_position := 0
        input_mode := .normal
        status_message := some "Cancelled" }
  | .backspace =>
      if a.cursor_position > 0 then
        match removeAtByte a.input (a.cursor_position - 1) with
        | some input' =>
            some { a with
              input := input'
              cursor_position := a.cursor_position - 1 }
        | none => none
      else some a
  | .left =>
      if a.cursor_position > 0 then
        some { a with cursor_position := a.cursor_position - 1 }
      else some a
  | .right =>
      if a.cursor_position < byteLen a.input then
        some { a with cursor_position := a.cursor_position + 1 }
      else some a
  | .char c =>
      match insertAtByte a.input a.cursor_position c with
      | some input' =>
          some { a with
            input := input'
            cursor_position := a.cursor_position + 1 }
      | none => none
  | _ => some a

/-- `App::handle_editing_mode` -/
def App.handle_editing_mode (a : App) (k : Key) (now : Int) : Option App :=
  match k with
  | .enter =>
      let a' :=
        match a.selected_index with
        | some idx =>
            if idx < a.todos.todos.length then
              { a with
                todos := { a.todos with
                  todos := modifyAt a.todos.todos idx
                    (fun t => { t with description := String.mk a.input }) }
                status_message := some "Todo title updated" }
            else a
        | none => a
      some { a' with input := [], cursor_position := 0, input_mode := .normal }
  | .esc =>
      some { a with
        input := []
        cursor_position := 0
        input_mode := .normal
        status_message := some "Edit cancelled" }
  | _ => a.handle_insert_mode k now

/-- Write one todo's due date (`self.todos.todos[idx].due_date = v`). -/
def TodoList.set_due (l : TodoList) (idx : Nat) (due : Option Int) :
    TodoList :=
  { l with todos := modifyAt l.todos idx (fun t => { t with due_date := due }) }

/-- `App::handle_due_date_mode`.  In the unparseable-date branch the
source sets the error message and returns early, so mode, buffer and
store are all left as they were.  (`and_hms_opt(23, 59, 59)` never
fails, so the `Ok` branch always stores the date.) -/
def App.handle_due_date_mode (a : App) (k : Key) (now : Int) : Option App :=
  match k with
  | .enter =>
      match a.selected_index with
      | some idx =>
          if idx < a.todos.todos.length then
            let input := lowerChars (trimChars a.input)
            if input = [] then
              some { a with
                todos := a.todos.set_due idx none
                status_message := some "Due date cleared"
                input := []
                cursor_position := 0
                input_mode := .normal }
            else if input = "today".data then
              some { a with
                todos := a.todos.set_due idx (some now)
                status_message := some "Due date set to today"
                input := []
                cursor_position := 0
                input_mode := .normal }
            else if input = "tomorrow".data then
              some { a with
                todos := a.todos.set_due idx (some (now + 86400))
                status_message := some "Due date set to tomorrow"
                input := []
                cursor_position := 0
                input_mode := .normal }
            else
              match parseYMD input with
              | some ymd =>
                  some { a with
                    todos := a.todos.set_due idx
                      (some (dateToTimestamp ymd.1 ymd.2.1 ymd.2.2))
                    status_message := some
                      ("Due date set to " ++ formatDate ymd.1 ymd.2.1 ymd.2.2)
                    input := []
                    cursor_position := 0
                    input_mode := .normal }
              | none =>
                  some { a with
                    status_message :=
                      some "Invalid date format. Use YYYY-MM-DD" }
          else
            some { a with input := [], cursor_position := 0, input_mode := .normal }
      | none =>
          some { a with input := [], cursor_position := 0, input_mode := .normal }
  | .esc =>
      some { a with
        input := []
        cursor_position := 0
        input_mode := .normal
        status_message := some "Due date edit cancelled" }
  | _ => a.handle_insert_mode k now

/-- `App::handle_editing_details_mode` -/
def App.handle_editing_details_mode (a : App) (k : Key) (now : Int) :
    Option App :=
  match k with
  | .enter =>
      let a' :=
        match a.selected_index with
        | some idx =>
            if idx < a.todos.todos.length then
              if trimChars a.input = [] then
                { a with
                  todos := { a.todos with
                    todos := modifyAt a.todos.todos idx
                      (fun t => { t with details := none }) }
                  status_message := some "Details cleared" }
              else
                { a with
                  todos := { a.todos with
                    todos := modifyAt a.todos.todos idx
                      (fun t => { t with details := some (String.mk a.input) }) }
                  status_message := some "Details updated" }
            else a
        | none => a
      some { a' with input := [], cursor_position := 0, input_mode := .normal }
  | .esc =>
      some { a with
        input := []
        cursor_position := 0
        input_mode := .normal
        status_message := some "Edit cancelled" }
  | _ => a.handle_insert_mode k now

/-- Name shown for a priority level in the status message. -/
def priorityName (p : Nat) : String :=
  match p with
  | 1 => "Low"
  | 2 => "Normal"
  | 3 => "Medium"
  | 4 => "High"
  | 5 => "Critical"
  | _ => "Unknown"

/-- The rejection message `handle_priority_mode` shows for any key that
is not a digit or Escape. -/
def invalidPriorityMsg : String :=
  "Invalid priority. Press 1-5 to set, 0 to clear, Esc to cancel"

/-- `App::handle_priority_mode` -/
def App.handle_priority_mode (a : App) (k : Key) : App :=
  match k with
  | .char c =>
      if c = '0' then
        let a' :=
          match a.selected_index with
          | some idx =>
              if idx < a.todos.todos.length then
                { a with
                  todos := { a.todos with
                    todos := modifyAt a.todos.todos idx
                      (fun t => { t with priority := none }) }
                  status_message := some "Priority cleared" }
              else a
          | none => a
        { a' with input_mode := .normal }
      else if '1' ≤ c ∧ c ≤ '5' then
        let priority := c.toNat - '0'.toNat
        let a' :=
          match a.selected_index with
          | some idx =>
              if idx < a.todos.todos.length then
                { a with
                  todos := { a.todos with
                    todos := modifyAt a.todos.todos idx
                      (fun t => { t with priority := some priority }) }
                  status_message := some
                    ("Priority set to " ++ toString priority ++ " (" ++
                      priorityName priority ++ ")") }
              else a
          | none => a
        { a' with input_mode := .normal }
      else
        { a with status_message := some invalidPriorityMsg }
  | .esc =>
      { a with
        input_mode := .normal
        status_message := some "Priority change cancelled" }
  | _ =>
      { a with status_message := some invalidPriorityMsg }

/-- `App::handle_normal_mode` -/
def App.handle_normal_mode (a : App) (k : Key) (now : Int) : App :=
  match k with
  | .down => a.move_selection 1
  | .up => a.move_selection (-1)
  | .enter => a.toggle_complete now
  | .ctrlC => { a with should_quit := true }
  | .char c =>
      if c = 'j' then a.move_selection 1
      else if c = 'k' then a.move_selection (-1)
      else if c = 'g' then a.move_to_top
      else if c = 'G' then a.move_to_bottom
      else if c = 'i' then
        { a with
          input_mode := .insert
          input := []
          cursor_position := 0
          status_message := some "Enter todo description" }
      else if c = 'd' then a.delete_selected
      else if c = 'e' then a.start_editing
      else if c = 'D' then a.start_editing_details
      else if c = 'u' then a.prompt_due_date
      else if c = 'f' then a.cycle_filter
      else if c = '1' then a.set_filter .all
      else if c = '2' then a.set_filter .pending
      else if c = '3' then a.set_filter .completed
      else if c = '4' then a.set_filter .highPriority
      else if c = '5' then a.set_filter .mediumPriority
      else if c = '6' then a.set_filter .lowPriority
      else if c = '7' then a.set_filter .overdue
      else if c = '8' then a.set_filter .dueToday
      else if c = '9' then a.set_filter .dueSoon
      else if c = '0' then a.set_filter .hasDueDate
      else if c = 'p' then a.prompt_priority
      else if c = 'v' then
        let nd := !a.show_details
        { a with
          show_details := nd
          status_message := some
            (if nd then "Showing detailed descriptions"
             else "Hiding detailed descriptions") }
      else if c = 'h' ∨ c = '?' then { a with show_help := !a.show_help }
      else if c = 'q' then { a with should_quit := true }
      else a
  | _ => a

/-- One iteration of the key dispatch in `run_app`. -/
def App.step (a : App) (k : Key) (now : Int) : Option App :=
  match a.input_mode with
  | .normal => some (a.handle_normal_mode k now)
  | .insert => a.handle_insert_mode k now
  | .editing => a.handle_editing_mode k now
  | .editingDetails => a.handle_editing_details_mode k now
  | .editingDueDate => a.handle_due_date_mode k now
  | .settingPriority => some (a.handle_priority_mode k)

/-- A whole key sequence, each press with its own wall-clock instant. -/
def App.steps (a : App) : List (Key × Int) → Option App
  | [] => some a
  | (k, now) :: rest =>
      match a.step k now with
      | some a' => a'.steps rest
      | none => none

/-- The filtered view the list region renders (`draw_todo_list` derives
it with `filter_todos`). -/
def App.visible (a : App) (now : Int) : List Todo :=
  a.todos.filter_todos a.filter now

/-! ## Generic list lemmas -/

theorem modifyAt_length {α : Type} (l : List α) (i : Nat) (f : α → α) :
    (modifyAt l i f).length = l.length := by
  induction l generalizing i with
  | nil => rfl
  | cons x xs ih =>
      cases i with
      | zero => rfl
      | succ j => simpa [modifyAt] using ih j

theorem all_modifyAt {α : Type} (l : List α) (i : Nat) (f : α → α)
    (p : α → Bool) (h : l.all p = true)
    (hf : ∀ x, p x = true → p (f x) = true) :
    (modifyAt l i f).all p = true := by
  induction l generalizing i with
  | nil => simp [modifyAt]
  | cons x xs ih =>
      cases i with
      | zero =>
          simp only [modifyAt, List.all_cons, Bool.and_eq_true] at h ⊢
          exact ⟨hf x h.1, h.2⟩
      | succ j =>
          simp only [modifyAt, List.all_cons, Bool.and_eq_true] at h ⊢
          exact ⟨h.1, ih j h.2⟩

theorem all_filter_of_all {α : Type} (l : List α) (p q : α → Bool)
    (h : l.all p = true) : (l.filter q).all p = true := by
  simp only [List.all_eq_true] at h ⊢
  exact fun x hx => h x (List.mem_filter.mp hx).1

/-! ## C2: id assignment is strictly increasing, ids are never reused -/

/-- The store invariant behind id freshness: `next_id` exceeds every
stored id. -/
def TodoList.idInv (l : TodoList) : Bool :=
  l.todos.all (fun t => decide (t.id < l.next_id))

theorem idInv_iff (l : TodoList) :
    l.idInv = true ↔ ∀ t ∈ l.todos, t.id < l.next_id := by
  simp [TodoList.idInv]

theorem idInv_applyOp (l : TodoList) (op : StoreOp) (h : l.idInv = true) :
    (applyOp l op).idInv = true := by
  cases op with
  | add d p now =>
      rw [idInv_iff] at h ⊢
      intro t ht
      simp only [applyOp, TodoList.add_todo, List.mem_append,
        List.mem_singleton] at ht
      cases ht with
      | inl ht => exact Nat.lt_succ_of_lt (h t ht)
      | inr ht => subst ht; exact Nat.lt_succ_self _
  | remove id =>
      exact all_filter_of_all _ _ _ h

theorem idInv_applyOps (ops : List StoreOp) (l : TodoList)
    (h : l.idInv = true) : (applyOps l ops).idInv = true := by
  induction ops generalizing l with
  | nil => exact h
  | cons op ops ih => exact ih _ (idInv_applyOp l op h)

theorem next_id_le_applyOp (l : TodoList) (op : StoreOp) :
    l.next_id ≤ (applyOp l op).next_id := by
  cases op with
  | add d p now => exact Nat.le_succ _
  | remove id => exact Nat.le_refl _

theorem next_id_le_applyOps (ops : List StoreOp) (l : TodoList) :
    l.next_id ≤ (applyOps l ops).next_id := by
  induction ops generalizing l with
  | nil => exact Nat.le_refl _
  | cons op ops ih =>
      exact Nat.le_trans (next_id_le_applyOp l op) (ih (applyOp l op))

theorem addTrace_ge (ops : List StoreOp) (l : TodoList) :
    ∀ x ∈ addTrace l ops, l.next_id ≤ x := by
  induction ops generalizing l with
  | nil => intro x hx; simp [addTrace] at hx
  | cons op ops ih =>
      intro x hx
      cases op with
      | add d p now =>
          simp only [addTrace] at hx
          cases hx with
          | head => exact Nat.le_refl _
          | tail _ hx =>
              exact Nat.le_trans (Nat.le_succ _) (ih (applyOp l (.add d p now)) x hx)
      | remove id =>
          simp only [addTrace] at hx
          exact ih (applyOp l (.remove id)) x hx

theorem addTrace_pairwise (ops : List StoreOp) (l : TodoList) :
    (addTrace l ops).Pairwise (· < ·) := by
  induction ops generalizing l with
  | nil => exact List.Pairwise.nil
  | cons op ops ih =>
      cases op with
      | add d p now =>
          simp only [addTrace]
          refine List.Pairwise.cons ?_ (ih _)
          intro x hx
          exact Nat.lt_of_succ_le (addTrace_ge ops _ x hx)
      | remove id => exact ih _

/-- C2: along any sequence of adds and removes from a fresh store, the
ids handed out by the adds are strictly increasing, `next_id` always
strictly exceeds every stored id, `next_id` never decreases, and the id
of a task present at any point (so in particular of any task later
removed) is never handed out by a later add. -/
theorem store_ids_strictly_increasing_never_reused
    (ops more : List StoreOp) :
    (addTrace (applyOps TodoList.new ops) more).Pairwise (· < ·) ∧
    (∀ t ∈ (applyOps TodoList.new ops).todos,
      t.id < (applyOps TodoList.new ops).next_id) ∧
    (applyOps TodoList.new ops).next_id ≤
      (applyOps TodoList.new (ops ++ more)).next_id ∧
    (∀ t ∈ (applyOps TodoList.new ops).todos,
      ∀ x ∈ addTrace (applyOps TodoList.new ops) more, t.id < x) := by
  have hinv : (applyOps TodoList.new ops).idInv = true :=
    idInv_applyOps ops TodoList.new (by decide)
  have hids := (idInv_iff _).mp hinv
  refine ⟨addTrace_pairwise more _, hids, ?_, ?_⟩
  · have happ : applyOps TodoList.new (ops ++ more) =
        applyOps (applyOps TodoList.new ops) more := by
      simp [applyOps, List.foldl_append]
    rw [happ]
    exact next_id_le_applyOps more _
  · intro t ht x hx
    exact Nat.lt_of_lt_of_le (hids t ht) (addTrace_ge more _ x hx)

/-- Witness for C2 at a concrete run: add, remove, add again — the todo
added first (id 1) has an id strictly below the id 2 handed out by the
add that follows the removal. -/
theorem store_ids_witness : (Todo.new 1 "a" none 0).id < 2 := by
  have h := store_ids_strictly_increasing_never_reused
    [.add "a" none 0] [.remove 1, .add "b" none 0]
  exact h.2.2.2 (Todo.new 1 "a" none 0) (by decide) 2 (by decide)

/-! ## C1: what the selection index is an index into -/

/-- The selection invariant the code actually maintains, against the
full store: absent exactly when the store is empty, otherwise a valid
index into `todos.todos`. -/
def App.selectionInv (a : App) : Bool :=
  match a.selected_index with
  | none => a.todos.todos.isEmpty
  | some i => decide (i < a.todos.todos.length)

/-- The invariant as the spec states it, against the filtered view:
absent exactly when the view is empty, otherwise a valid index into the
view. -/
def App.selectionViewInv (a : App) (now : Int) : Bool :=
  match a.selected_index with
  | none => (a.visible now).isEmpty
  | some i => decide (i < (a.visible now).length)

/-- Propositional form of `App.selectionInv`. -/
def SelOk (a : App) : Prop :=
  match a.selected_index with
  | none => a.todos.todos = []
  | some i => i < a.todos.todos.length

theorem selectionInv_eq_true_iff (a : App) :
    a.selectionInv = true ↔ SelOk a := by
  unfold App.selectionInv SelOk
  cases a.selected_index <;> simp [List.isEmpty_iff]

theorem selOk_congr {a b : App} (h : SelOk a)
    (hs : b.selected_index = a.selected_index)
    (ht : b.todos.todos = a.todos.todos) : SelOk b := by
  unfold SelOk at *
  rw [hs, ht]
  exact h

theorem selOk_congr_len {a b : App} (h : SelOk a)
    (hs : b.selected_index = a.selected_index)
    (ht : b.todos.todos.length = a.todos.todos.length) : SelOk b := by
  unfold SelOk at *
  rw [hs]
  cases hsel : a.selected_index with
  | none =>
      rw [hsel] at h
      exact List.length_eq_zero.mp (by rw [ht, h, List.length_nil])
  | some i =>
      rw [hsel] at h
      exact ht ▸ h

theorem selOk_move_selection {a : App} (h : SelOk a) (d : Int) :
    SelOk (a.move_selection d) := by
  unfold App.move_selection
  split
  · exact h
  · rename_i hne
    have hlen : 0 < a.todos.todos.length := List.length_pos.mpr hne
    cases hsel : a.selected_index with
    | none => simp only [SelOk]; exact hlen
    | some current =>
        have hcur : current < a.todos.todos.length := by
          unfold SelOk at h; rw [hsel] at h; exact h
        simp only [SelOk]
        split
        · exact Nat.lt_of_le_of_lt (Nat.min_le_right _ _)
            (Nat.sub_lt hlen Nat.one_pos)
        · exact Nat.lt_of_le_of_lt (Nat.sub_le _ _) hcur

theorem selOk_move_to_top {a : App} (h : SelOk a) : SelOk a.move_to_top := by
  unfold App.move_to_top
  split
  · exact h
  · rename_i hne
    simp only [SelOk]
    exact List.length_pos.mpr hne

theorem selOk_move_to_bottom {a : App} (h : SelOk a) :
    SelOk a.move_to_bottom := by
  unfold App.move_to_bottom
  split
  · exact h
  · rename_i hne
    simp only [SelOk]
    exact Nat.sub_lt (List.length_pos.mpr hne) Nat.one_pos

theorem selOk_toggle_complete {a : App} (h : SelOk a) (now : Int) :
    SelOk (a.toggle_complete now) := by
  unfold App.toggle_complete
  split
  · exact h
  · split
    · exact h
    · split
      · exact selOk_congr_len h rfl (modifyAt_length _ _ _)
      · exact selOk_congr_len h rfl (modifyAt_length _ _ _)

theorem selOk_delete_selected {a : App} (h : SelOk a) :
    SelOk a.delete_selected := by
  simp only [App.delete_selected]
  split
  · exact h
  · rename_i idx hsel
    split
    · exact h
    · split
      · split
        · rename_i hemp
          simp only [SelOk]
          exact hemp
        · split
          · rename_i hne hle
            simp only [SelOk]
            exact Nat.sub_lt (List.length_pos.mpr hne) Nat.one_pos
          · rename_i hne hlt
            unfold SelOk
            rw [hsel]
            exact Nat.lt_of_not_le hlt
      · exact h

theorem selOk_start_editing {a : App} (h : SelOk a) :
    SelOk a.start_editing := by
  unfold App.start_editing
  split
  · exact h
  · split
    · exact h
    · exact selOk_congr h rfl rfl

theorem selOk_start_editing_details {a : App} (h : SelOk a) :
    SelOk a.start_editing_details := by
  simp only [App.start_editing_details]
  split
  · exact selOk_congr h rfl rfl
  · split
    · exact h
    · exact selOk_congr h rfl rfl

theorem selOk_prompt_due_date {a : App} (h : SelOk a) :
    SelOk a.prompt_due_date := by
  simp only [App.prompt_due_date]
  split
  · exact selOk_congr h rfl rfl
  · split
    · exact h
    · exact selOk_congr h rfl rfl

theorem selOk_prompt_priority {a : App} (h : SelOk a) :
    SelOk a.prompt_priority := by
  unfold App.prompt_priority
  split
  · exact selOk_congr h rfl rfl
  · exact selOk_congr h rfl rfl

theorem selOk_set_filter {a : App} (h : SelOk a) (f : TodoFilter) :
    SelOk (a.set_filter f) :=
  selOk_congr h rfl rfl

theorem selOk_cycle_filter {a : App} (h : SelOk a) :
    SelOk a.cycle_filter :=
  selOk_congr h rfl rfl

set_option maxHeartbeats 2000000 in
theorem selOk_handle_normal_mode {a : App} (h : SelOk a) (k : Key)
    (now : Int) : SelOk (a.handle_normal_mode k now) := by
  cases k with
  | down =>
      simp only [App.handle_normal_mode]
      exact selOk_move_selection h 1
  | up =>
      simp only [App.handle_normal_mode]
      exact selOk_move_selection h (-1)
  | enter =>
      simp only [App.handle_normal_mode]
      exact selOk_toggle_complete h now
  | ctrlC =>
      simp only [App.handle_normal_mode]
      exact selOk_congr h rfl rfl
  | esc => exact h
  | backspace => exact h
  | left => exact h
  | right => exact h
  | char c =>
      simp only [App.handle_normal_mode]
      by_cases hc0 : c = 'j'
      · rw [if_pos hc0]
        exact selOk_move_selection h 1
      rw [if_neg hc0]
      by_cases hc1 : c = 'k'
      · rw [if_pos hc1]
        exact selOk_move_selection h (-1)
      rw [if_neg hc1]
      by_cases hc2 : c = 'g'
      · rw [if_pos hc2]
        exact selOk_move_to_top h
      rw [if_neg hc2]
      by_cases hc3 : c = 'G'
      · rw [if_pos hc3]
        exact selOk_move_to_bottom h
      rw [if_neg hc3]
      by_cases hc4 : c = 'i'
      · rw [if_pos hc4]
        exact selOk_congr h rfl rfl
      rw [if_neg hc4]
      by_cases hc5 : c = 'd'
      · rw [if_pos hc5]
        exact selOk_delete_selected h
      rw [if_neg hc5]
      by_cases hc6 : c = 'e'
      · rw [if_pos hc6]
        exact selOk_start_editing h
      rw [if_neg hc6]
      by_cases hc7 : c = 'D'
      · rw [if_pos hc7]
        exact selOk_start_editing_details h
      rw [if_neg hc7]
      by_cases hc8 : c = 'u'
      · rw [if_pos hc8]
        exact selOk_prompt_due_date h
      rw [if_neg hc8]
      by_cases hc9 : c = 'f'
      · rw [if_pos hc9]
        exact selOk_cycle_filter h
      rw [if_neg hc9]
      by_cases hc10 : c = '1'
      · rw [if_pos hc10]
        exact selOk_set_filter h _
      rw [if_neg hc10]
      by_cases hc11 : c = '2'
      · rw [if_pos hc11]
        exact selOk_set_filter h _
      rw [if_neg hc11]
      by_cases hc12 : c = '3'
      · rw [if_pos hc12]
        exact selOk_set_filter h _
      rw [if_neg hc12]
      by_cases hc13 : c = '4'
      · rw [if_pos hc13]
        exact selOk_set_filter h _
      rw [if_neg hc13]
      by_cases hc14 : c = '5'
      · rw [if_pos hc14]
        exact selOk_set_filter h _
      rw [if_neg hc14]
      by_cases hc15 : c = '6'
      · rw [if_pos hc15]
        exact selOk_set_filter h _
      rw [if_neg hc15]
      by_cases hc16 : c = '7'
      · rw [if_pos hc16]
        exact selOk_set_filter h _
      rw [if_neg hc16]
      by_cases hc17 : c = '8'
      · rw [if_pos hc17]
        exact selOk_set_filter h _
      rw [if_neg hc17]
      by_cases hc18 : c = '9'
      · rw [if_pos hc18]
        exact selOk_set_filter h _
      rw [if_neg hc18]
      by_cases hc19 : c = '0'
      · rw [if_pos hc19]
        exact selOk_set_filter h _
      rw [if_neg hc19]
      by_cases hc20 : c = 'p'
      · rw [if_pos hc20]
        exact selOk_prompt_priority h
      rw [if_neg hc20]
      by_cases hc21 : c = 'v'
      · rw [if_pos hc21]
        exact selOk_congr h rfl rfl
      rw [if_neg hc21]
      by_cases hc22 : c = 'h' ∨ c = '?'
      · rw [if_pos hc22]
        exact selOk_congr h rfl rfl
      rw [if_neg hc22]
      by_cases hc23 : c = 'q'
      · rw [if_pos hc23]
        exact selOk_congr h rfl rfl
      rw [if_neg hc23]
      exact h

theorem selOk_handle_insert_mode {a a' : App} (h : SelOk a) {k : Key}
    {now : Int} (hstep : a.handle_insert_mode k now = some a') :
    SelOk a' := by
  cases k with
  | enter =>
      simp only [App.handle_insert_mode] at hstep
      split at hstep
      · obtain rfl := Option.some.inj hstep
        exact h
      · obtain rfl := Option.some.inj hstep
        split
        · rename_i hemp
          exact absurd hemp (by simp [TodoList.add_todo])
        · simp only [SelOk]
          simp [TodoList.add_todo]
  | esc =>
      simp only [App.handle_insert_mode] at hstep
      obtain rfl := Option.some.inj hstep
      exact selOk_congr h rfl rfl
  | backspace =>
      simp only [App.handle_insert_mode] at hstep
      split at hstep
      · split at hstep
        · obtain rfl := Option.some.inj hstep
          exact selOk_congr h rfl rfl
        · exact Option.noConfusion hstep
      · obtain rfl := Option.some.inj hstep
        exact h
  | left =>
      simp only [App.handle_insert_mode] at hstep
      split at hstep
      · obtain rfl := Option.some.inj hstep
        exact selOk_congr h rfl rfl
      · obtain rfl := Option.some.inj hstep
        exact h
  | right =>
      simp only [App.handle_insert_mode] at hstep
      split at hstep
      · obtain rfl := Option.some.inj hstep
        exact selOk_congr h rfl rfl
      · obtain rfl := Option.some.inj hstep
        exact h
  | char c =>
      simp only [App.handle_insert_mode] at hstep
      split at hstep
      · obtain rfl := Option.some.inj hstep
        exact selOk_congr h rfl rfl
      · exact Option.noConfusion hstep
  | down =>
      simp only [App.handle_insert_mode] at hstep
      obtain rfl := Option.some.inj hstep
      exact h
  | up =>
      simp only [App.handle_insert_mode] at hstep
      obtain rfl := Option.some.inj hstep
      exact h
  | ctrlC =>
      simp only [App.handle_insert_mode] at hstep
      obtain rfl := Option.some.inj hstep
      exact h

theorem selOk_handle_editing_mode {a a' : App} (h : SelOk a) {k : Key}
    {now : Int} (hstep : a.handle_editing_mode k now = some a') :
    SelOk a' := by
  cases k with
  | enter =>
      simp only [App.handle_editing_mode] at hstep
      obtain rfl := Option.some.inj hstep
      split
      · split
        · exact selOk_congr_len h rfl (modifyAt_length _ _ _)
        · exact selOk_congr h rfl rfl
      · exact selOk_congr h rfl rfl
  | esc =>
      simp only [App.handle_editing_mode] at hstep
      obtain rfl := Option.some.inj hstep
      exact selOk_congr h rfl rfl
  | backspace =>
      simp only [App.handle_editing_mode] at hstep
      exact selOk_handle_insert_mode h hstep
  | left =>
      simp only [App.handle_editing_mode] at hstep
      exact selOk_handle_insert_mode h hstep
  | right =>
      simp only [App.handle_editing_mode] at hstep
      exact selOk_handle_insert_mode h hstep
  | char c =>
      simp only [App.handle_editing_mode] at hstep
      exact selOk_handle_insert_mode h hstep
  | down =>
      simp only [App.handle_editing_mode] at hstep
      exact selOk_handle_insert_mode h hstep
  | up =>
      simp only [App.handle_editing_mode] at hstep
      exact selOk_handle_insert_mode h hstep
  | ctrlC =>
      simp only [App.handle_editing_mode] at hstep
      exact selOk_handle_insert_mode h hstep

theorem selOk_handle_due_date_mode {a a' : App} (h : SelOk a) {k : Key}
    {now : Int} (hstep : a.handle_due_date_mode k now = some a') :
    SelOk a' := by
  cases k with
  | enter =>
      simp only [App.handle_due_date_mode] at hstep
      split at hstep
      · split at hstep
        · split at hstep
          · obtain rfl := Option.some.inj hstep
            exact selOk_congr_len h rfl (by
              simp [TodoList.set_due, modifyAt_length])
          · split at hstep
            · obtain rfl := Option.some.inj hstep
              exact selOk_congr_len h rfl (by
                simp [TodoList.set_due, modifyAt_length])
            · split at hstep
              · obtain rfl := Option.some.inj hstep
                exact selOk_congr_len h rfl (by
                  simp [TodoList.set_due, modifyAt_length])
              · split at hstep
                · obtain rfl := Option.some.inj hstep
                  exact selOk_congr_len h rfl (by
                    simp [TodoList.set_due, modifyAt_length])
                · obtain rfl := Option.some.inj hstep
                  exact selOk_congr h rfl rfl
        · obtain rfl := Option.some.inj hstep
          exact selOk_congr h rfl rfl
      · obtain rfl := Option.some.inj hstep
        exact selOk_congr h rfl rfl
  | esc =>
      simp only [App.handle_due_date_mode] at hstep
      obtain rfl := Option.some.inj hstep
      exact selOk_congr h rfl rfl
  | backspace =>
      simp only [App.handle_due_date_mode] at hstep
      exact selOk_handle_insert_mode h hstep
  | left =>
      simp only [App.handle_due_date_mode] at hstep
      exact selOk_handle_insert_mode h hstep
  | right =>
      simp only [App.handle_due_date_mode] at hstep
      exact selOk_handle_insert_mode h hstep
  | char c =>
      simp only [App.handle_due_date_mode] at hstep
      exact selOk_handle_insert_mode h hstep
  | down =>
      simp only [App.handle_due_date_mode] at hstep
      exact selOk_handle_insert_mode h hstep
  | up =>
      simp only [App.handle_due_date_mode] at hstep
      exact selOk_handle_insert_mode h hstep
  | ctrlC =>
      simp only [App.handle_due_date_mode] at hstep
      exact selOk_handle_insert_mode h hstep

theorem selOk_handle_editing_details_mode {a a' : App} (h : SelOk a)
    {k : Key} {now : Int}
    (hstep : a.handle_editing_details_mode k now = some a') : SelOk a' := by
  cases k with
  | enter =>
      simp only [App.handle_editing_details_mode] at hstep
      obtain rfl := Option.some.inj hstep
      split
      · split
        · split
          · exact selOk_congr_len h rfl (modifyAt_length _ _ _)
          · exact selOk_congr_len h rfl (modifyAt_length _ _ _)
        · exact selOk_congr h rfl rfl
      · exact selOk_congr h rfl rfl
  | esc =>
      simp only [App.handle_editing_details_mode] at hstep
      obtain rfl := Option.some.inj hstep
      exact selOk_congr h rfl rfl
  | backspace =>
      simp only [App.handle_editing_details_mode] at hstep
      exact selOk_handle_insert_mode h hstep
  | left =>
      simp only [App.handle_editing_details_mode] at hstep
      exact selOk_handle_insert_mode h hstep
  | right =>
      simp only [App.handle_editing_details_mode] at hstep
      exact selOk_handle_insert_mode h hstep
  | char c =>
      simp only [App.handle_editing_details_mode] at hstep
      exact selOk_handle_insert_mode h hstep
  | down =>
      simp only [App.handle_editing_details_mode] at hstep
      exact selOk_handle_insert_mode h hstep
  | up =>
      simp only [App.handle_editing_details_mode] at hstep
      exact selOk_handle_insert_mode h hstep
  | ctrlC =>
      simp only [App.handle_editing_details_mode] at hstep
      exact selOk_handle_insert_mode h hstep

theorem selOk_handle_priority_mode {a : App} (h : SelOk a) (k : Key) :
    SelOk (a.handle_priority_mode k) := by
  cases k with
  | char c =>
      simp only [App.handle_priority_mode]
      split
      · split
        · split
          · exact selOk_congr_len h rfl (modifyAt_length _ _ _)
          · exact selOk_congr h rfl rfl
        · exact selOk_congr h rfl rfl
      · split
        · split
          · split
            · exact selOk_congr_len h rfl (modifyAt_length _ _ _)
            · exact selOk_congr h rfl rfl
          · exact selOk_congr h rfl rfl
        · exact selOk_congr h rfl rfl
  | esc => exact selOk_congr h rfl rfl
  | enter => exact selOk_congr h rfl rfl
  | backspace => exact selOk_congr h rfl rfl
  | left => exact selOk_congr h rfl rfl
  | right => exact selOk_congr h rfl rfl
  | down => exact selOk_congr h rfl rfl
  | up => exact selOk_congr h rfl rfl
  | ctrlC => exact selOk_congr h rfl rfl

theorem selOk_step {a a' : App} {k : Key} {now : Int} (h : SelOk a)
    (hstep : a.step k now = some a') : SelOk a' := by
  unfold App.step at hstep
  split at hstep
  · exact (Option.some.inj hstep) ▸ selOk_handle_normal_mode h k now
  · exact selOk_handle_insert_mode h hstep
  · exact selOk_handle_editing_mode h hstep
  · exact selOk_handle_editing_details_mode h hstep
  · exact selOk_handle_due_date_mode h hstep
  · exact (Option.some.inj hstep) ▸ selOk_handle_priority_mode h k

theorem selOk_steps {a a' : App} {seq : List (Key × Int)} (h : SelOk a)
    (hsteps : a.steps seq = some a') : SelOk a' := by
  induction seq generalizing a with
  | nil =>
      simp only [App.steps] at hsteps
      exact (Option.some.inj hsteps) ▸ h
  | cons p rest ih =>
      obtain ⟨k, now⟩ := p
      simp only [App.steps] at hsteps
      cases hstep : a.step k now with
      | none => rw [hstep] at hsteps; exact Option.noConfusion hsteps
      | some b => rw [hstep] at hsteps; exact ih (selOk_step h hstep) hsteps

theorem selOk_appNew (l : TodoList) : SelOk (App.new l) := by
  unfold App.new
  split
  · rename_i hemp
    simp only [SelOk]
    exact List.isEmpty_iff.mp hemp
  · rename_i hne
    simp only [SelOk]
    exact List.length_pos.mpr (by simpa [List.isEmpty_iff] using hne)

/-- A pending task, as loaded at session start. -/
def exTodoA : Todo :=
  Todo.new 1 "A" none 0

/-- An already-completed task, as loaded at session start. -/
def exTodoB : Todo :=
  { Todo.new 2 "B" none 0 with completed := true, completed_at := some 0 }

/-- A two-task store: one pending task, one completed task. -/
def exStore : TodoList :=
  { todos := [exTodoA, exTodoB], next_id := 3 }

/-- C1 (counterexample): from a session opened on `exStore`, pressing
`3` (jump to the Completed filter) and then `j` (move down — a move
action) yields a state whose selection is `some 1` while the filtered
view has exactly one entry: the selection lies outside
`[0, len(visible)-1]`, refuting the claimed view-relative invariant. -/
theorem selection_view_invariant_counterexample :
    ((App.new exStore).steps [(.char '3', 0), (.char 'j', 0)]).map
        (fun b => (b.selectionViewInv 0, b.selected_index, (b.visible 0).length))
      = some (false, some 1, 1) := by
  decide

/-- C1 (amended): the selection is an optional index into the full
store, not the filtered view: in every state reachable from a fresh
session by any key sequence — moves, inserts and deletes included — the
selection, when present, lies within `[0, len(todos)-1]`, and it is
`None` exactly when the store is empty. -/
theorem selection_is_store_index_invariant (l : TodoList)
    (seq : List (Key × Int)) (a' : App)
    (h : (App.new l).steps seq = some a') :
    a'.selectionInv = true :=
  (selectionInv_eq_true_iff a').mpr (selOk_steps (selOk_appNew l) h)

/-- Witness for the amended C1 invariant on a concrete run: one `j`
keypress from a session opened on the two-task store. -/
theorem selection_is_store_index_invariant_witness :
    ((App.new exStore).handle_normal_mode (.char 'j') 0).selectionInv = true :=
  selection_is_store_index_invariant exStore [(.char 'j', 0)] _ rfl

/-! ## C3: `completed` and `completed_at` never drift apart -/

/-- One task's two completion fields agree. -/
def Todo.syncOk (t : Todo) : Bool :=
  t.completed == t.completed_at.isSome

/-- Store-wide form of the completion-field invariant. -/
def TodoList.syncInv (l : TodoList) : Bool :=
  l.todos.all Todo.syncOk

/-- Session-state form of the completion-field invariant. -/
def SyncAll (a : App) : Prop :=
  a.todos.todos.all Todo.syncOk = true

theorem syncAll_move_selection {a : App} (h : SyncAll a) (d : Int) :
    SyncAll (a.move_selection d) := by
  unfold App.move_selection
  split
  · exact h
  · split
    · exact h
    · exact h

theorem syncAll_move_to_top {a : App} (h : SyncAll a) :
    SyncAll a.move_to_top := by
  unfold App.move_to_top
  split
  · exact h
  · exact h

theorem syncAll_move_to_bottom {a : App} (h : SyncAll a) :
    SyncAll a.move_to_bottom := by
  unfold App.move_to_bottom
  split
  · exact h
  · exact h

theorem syncAll_toggle_complete {a : App} (h : SyncAll a) (now : Int) :
    SyncAll (a.toggle_complete now) := by
  unfold App.toggle_complete
  split
  · exact h
  · split
    · exact h
    · split
      · exact all_modifyAt _ _ _ _ h (fun x _ => rfl)
      · exact all_modifyAt _ _ _ _ h (fun x _ => rfl)

theorem syncAll_delete_selected {a : App} (h : SyncAll a) :
    SyncAll a.delete_selected := by
  simp only [App.delete_selected]
  split
  · exact h
  · split
    · exact h
    · split
      · split
        · exact all_filter_of_all _ _ _ h
        · split
          · exact all_filter_of_all _ _ _ h
          · exact all_filter_of_all _ _ _ h
      · exact h

theorem syncAll_start_editing {a : App} (h : SyncAll a) :
    SyncAll a.start_editing := by
  unfold App.start_editing
  split
  · exact h
  · split
    · exact h
    · exact h

theorem syncAll_start_editing_details {a : App} (h : SyncAll a) :
    SyncAll a.start_editing_details := by
  simp only [App.start_editing_details]
  split
  · exact h
  · split
    · exact h
    · exact h

theorem syncAll_prompt_due_date {a : App} (h : SyncAll a) :
    SyncAll a.prompt_due_date := by
  simp only [App.prompt_due_date]
  split
  · exact h
  · split
    · exact h
    · exact h

theorem syncAll_prompt_priority {a : App} (h : SyncAll a) :
    SyncAll a.prompt_priority := by
  unfold App.prompt_priority
  split
  · exact h
  · exact h

theorem syncAll_handle_normal_mode {a : App} (h : SyncAll a) (k : Key)
    (now : Int) : SyncAll (a.handle_normal_mode k now) := by
  cases k with
  | down =>
      simp only [App.handle_normal_mode]
      exact syncAll_move_selection h 1
  | up =>
      simp only [App.handle_normal_mode]
      exact syncAll_move_selection h (-1)
  | enter =>
      simp only [App.handle_normal_mode]
      exact syncAll_toggle_complete h now
  | ctrlC => exact h
  | esc => exact h
  | backspace => exact h
  | left => exact h
  | right => exact h
  | char c =>
      simp only [App.handle_normal_mode]
      by_cases hc0 : c = 'j'
      · rw [if_pos hc0]
        exact syncAll_move_selection h 1
      rw [if_neg hc0]
      by_cases hc1 : c = 'k'
      · rw [if_pos hc1]
        exact syncAll_move_selection h (-1)
      rw [if_neg hc1]
      by_cases hc2 : c = 'g'
      · rw [if_pos hc2]
        exact syncAll_move_to_top h
      rw [if_neg hc2]
      by_cases hc3 : c = 'G'
      · rw [if_pos hc3]
        exact syncAll_move_to_bottom h
      rw [if_neg hc3]
      by_cases hc4 : c = 'i'
      · rw [if_pos hc4]
        exact h
      rw [if_neg hc4]
      by_cases hc5 : c = 'd'
      · rw [if_pos hc5]
        exact syncAll_delete_selected h
      rw [if_neg hc5]
      by_cases hc6 : c = 'e'
      · rw [if_pos hc6]
        exact syncAll_start_editing h
      rw [if_neg hc6]
      by_cases hc7 : c = 'D'
      · rw [if_pos hc7]
        exact syncAll_start_editing_details h
      rw [if_neg hc7]
      by_cases hc8 : c = 'u'
      · rw [if_pos hc8]
        exact syncAll_prompt_due_date h
      rw [if_neg hc8]
      by_cases hc9 : c = 'f'
      · rw [if_pos hc9]
        exact h
      rw [if_neg hc9]
      by_cases hc10 : c = '1'
      · rw [if_pos hc10]
        exact h
      rw [if_neg hc10]
      by_cases hc11 : c = '2'
      · rw [if_pos hc11]
        exact h
      rw [if_neg hc11]
      by_cases hc12 : c = '3'
      · rw [if_pos hc12]
        exact h
      rw [if_neg hc12]
      by_cases hc13 : c = '4'
      · rw [if_pos hc13]
        exact h
      rw [if_neg hc13]
      by_cases hc14 : c = '5'
      · rw [if_pos hc14]
        exact h
      rw [if_neg hc14]
      by_cases hc15 : c = '6'
      · rw [if_pos hc15]
        exact h
      rw [if_neg hc15]
      by_cases hc16 : c = '7'
      · rw [if_pos hc16]
        exact h
      rw [if_neg hc16]
      by_cases hc17 : c = '8'
      · rw [if_pos hc17]
        exact h
      rw [if_neg hc17]
      by_cases hc18 : c = '9'
      · rw [if_pos hc18]
        exact h
      rw [if_neg hc18]
      by_cases hc19 : c = '0'
      · rw [if_pos hc19]
        exact h
      rw [if_neg hc19]
      by_cases hc20 : c = 'p'
      · rw [if_pos hc20]
        exact syncAll_prompt_priority h
      rw [if_neg hc20]
      by_cases hc21 : c = 'v'
      · rw [if_pos hc21]
        exact h
      rw [if_neg hc21]
      by_cases hc22 : c = 'h' ∨ c = '?'
      · rw [if_pos hc22]
        exact h
      rw [if_neg hc22]
      by_cases hc23 : c = 'q'
      · rw [if_pos hc23]
        exact h
      rw [if_neg hc23]
      exact h

theorem syncAll_handle_insert_mode {a a' : App} (h : SyncAll a) {k : Key}
    {now : Int} (hstep : a.handle_insert_mode k now = some a') :
    SyncAll a' := by
  cases k with
  | enter =>
      simp only [App.handle_insert_mode] at hstep
      split at hstep
      · obtain rfl := Option.some.inj hstep
        exact h
      · obtain rfl := Option.some.inj hstep
        split
        · simp only [SyncAll, TodoList.add_todo]
          simp only [SyncAll] at h
          simp [List.all_append, h, Todo.syncOk, Todo.new]
        · simp only [SyncAll, TodoList.add_todo]
          simp only [SyncAll] at h
          simp [List.all_append, h, Todo.syncOk, Todo.new]
  | esc =>
      simp only [App.handle_insert_mode] at hstep
      obtain rfl := Option.some.inj hstep
      exact h
  | backspace =>
      simp only [App.handle_insert_mode] at hstep
      split at hstep
      · split at hstep
        · obtain rfl := Option.some.inj hstep
          exact h
        · exact Option.noConfusion hstep
      · obtain rfl := Option.some.inj hstep
        exact h
  | left =>
      simp only [App.handle_insert_mode] at hstep
      split at hstep
      · obtain rfl := Option.some.inj hstep
        exact h
      · obtain rfl := Option.some.inj hstep
        exact h
  | right =>
      simp only [App.handle_insert_mode] at hstep
      split at hstep
      · obtain rfl := Option.some.inj hstep
        exact h
      · obtain rfl := Option.some.inj hstep
        exact h
  | char c =>
      simp only [App.handle_insert_mode] at hstep
      split at hstep
      · obtain rfl := Option.some.inj hstep
        exact h
      · exact Option.noConfusion hstep
  | down =>
      simp only [App.handle_insert_mode] at hstep
      obtain rfl := Option.some.inj hstep
      exact h
  | up =>
      simp only [App.handle_insert_mode] at hstep
      obtain rfl := Option.some.inj hstep
      exact h
  | ctrlC =>
      simp only [App.handle_insert_mode] at hstep
      obtain rfl := Option.some.inj hstep
      exact h

theorem syncAll_handle_editing_mode {a a' : App} (h : SyncAll a) {k : Key}
    {now : Int} (hstep : a.handle_editing_mode k now = some a') :
    SyncAll a' := by
  cases k with
  | enter =>
      simp only [App.handle_editing_mode] at hstep
      obtain rfl := Option.some.inj hstep
      split
      · split
        · exact all_modifyAt _ _ _ _ h (fun x hx => hx)
        · exact h
      · exact h
  | esc =>
      simp only [App.handle_editing_mode] at hstep
      obtain rfl := Option.some.inj hstep
      exact h
  | backspace =>
      simp only [App.handle_editing_mode] at hstep
      exact syncAll_handle_insert_mode h hstep
  | left =>
      simp only [App.handle_editing_mode] at hstep
      exact syncAll_handle_insert_mode h hstep
  | right =>
      simp only [App.handle_editing_mode] at hstep
      exact syncAll_handle_insert_mode h hstep
  | char c =>
      simp only [App.handle_editing_mode] at hstep
      exact syncAll_handle_insert_mode h hstep
  | down =>
      simp only [App.handle_editing_mode] at hstep
      exact syncAll_handle_insert_mode h hstep
  | up =>
      simp only [App.handle_editing_mode] at hstep
      exact syncAll_handle_insert_mode h hstep
  | ctrlC =>
      simp only [App.handle_editing_mode] at hstep
      exact syncAll_handle_insert_mode h hstep

theorem syncAll_handle_due_date_mode {a a' : App} (h : SyncAll a) {k : Key}
    {now : Int} (hstep : a.handle_due_date_mode k now = some a') :
    SyncAll a' := by
  cases k with
  | enter =>
      simp only [App.handle_due_date_mode] at hstep
      split at hstep
      · split at hstep
        · split at hstep
          · obtain rfl := Option.some.inj hstep
            exact all_modifyAt _ _ _ _ h (fun x hx => hx)
          · split at hstep
            · obtain rfl := Option.some.inj hstep
              exact all_modifyAt _ _ _ _ h (fun x hx => hx)
            · split at hstep
              · obtain rfl := Option.some.inj hstep
                exact all_modifyAt _ _ _ _ h (fun x hx => hx)
              · split at hstep
                · obtain rfl := Option.some.inj hstep
                  exact all_modifyAt _ _ _ _ h (fun x hx => hx)
                · obtain rfl := Option.some.inj hstep
                  exact h
        · obtain rfl := Option.some.inj hstep
          exact h
      · obtain rfl := Option.some.inj hstep
        exact h
  | esc =>
      simp only [App.handle_due_date_mode] at hstep
      obtain rfl := Option.some.inj hstep
      exact h
  | backspace =>
      simp only [App.handle_due_date_mode] at hstep
      exact syncAll_handle_insert_mode h hstep
  | left =>
      simp only [App.handle_due_date_mode] at hstep
      exact syncAll_handle_insert_mode h hstep
  | right =>
      simp only [App.handle_due_date_mode] at hstep
      exact syncAll_handle_insert_mode h hstep
  | char c =>
      simp only [App.handle_due_date_mode] at hstep
      exact syncAll_handle_insert_mode h hstep
  | down =>
      simp only [App.handle_due_date_mode] at hstep
      exact syncAll_handle_insert_mode h hstep
  | up =>
      simp only [App.handle_due_date_mode] at hstep
      exact syncAll_handle_insert_mode h hstep
  | ctrlC =>
      simp only [App.handle_due_date_mode] at hstep
      exact syncAll_handle_insert_mode h hstep

theorem syncAll_handle_editing_details_mode {a a' : App} (h : SyncAll a)
    {k : Key} {now : Int}
    (hstep : a.handle_editing_details_mode k now = some a') : SyncAll a' := by
  cases k with
  | enter =>
      simp only [App.handle_editing_details_mode] at hstep
      obtain rfl := Option.some.inj hstep
      split
      · split
        · split
          · exact all_modifyAt _ _ _ _ h (fun x hx => hx)
          · exact all_modifyAt _ _ _ _ h (fun x hx => hx)
        · exact h
      · exact h
  | esc =>
      simp only [App.handle_editing_details_mode] at hstep
      obtain rfl := Option.some.inj hstep
      exact h
  | backspace =>
      simp only [App.handle_editing_details_mode] at hstep
      exact syncAll_handle_insert_mode h hstep
  | left =>
      simp only [App.handle_editing_details_mode] at hstep
      exact syncAll_handle_insert_mode h hstep
  | right =>
      simp only [App.handle_editing_details_mode] at hstep
      exact syncAll_handle_insert_mode h hstep
  | char c =>
      simp only [App.handle_editing_details_mode] at hstep
      exact syncAll_handle_insert_mode h hstep
  | down =>
      simp only [App.handle_editing_details_mode] at hstep
      exact syncAll_handle_insert_mode h hstep
  | up =>
      simp only [App.handle_editing_details_mode] at hstep
      exact syncAll_handle_insert_mode h hstep
  | ctrlC =>
      simp only [App.handle_editing_details_mode] at hstep
      exact syncAll_handle_insert_mode h hstep

theorem syncAll_handle_priority_mode {a : App} (h : SyncAll a) (k : Key) :
    SyncAll (a.handle_priority_mode k) := by
  cases k with
  | char c =>
      simp only [App.handle_priority_mode]
      split
      · split
        · split
          · exact all_modifyAt _ _ _ _ h (fun x hx => hx)
          · exact h
        · exact h
      · split
        · split
          · split
            · exact all_modifyAt _ _ _ _ h (fun x hx => hx)
            · exact h
          · exact h
        · exact h
  | esc => exact h
  | enter => exact h
  | backspace => exact h
  | left => exact h
  | right => exact h
  | down => exact h
  | up => exact h
  | ctrlC => exact h

theorem syncAll_step {a a' : App} {k : Key} {now : Int} (h : SyncAll a)
    (hstep : a.step k now = some a') : SyncAll a' := by
  unfold App.step at hstep
  split at hstep
  · exact (Option.some.inj hstep) ▸ syncAll_handle_normal_mode h k now
  · exact syncAll_handle_insert_mode h hstep
  · exact syncAll_handle_editing_mode h hstep
  · exact syncAll_handle_editing_details_mode h hstep
  · exact syncAll_handle_due_date_mode h hstep
  · exact (Option.some.inj hstep) ▸ syncAll_handle_priority_mode h k

theorem syncAll_steps {a a' : App} {seq : List (Key × Int)} (h : SyncAll a)
    (hsteps : a.steps seq = some a') : SyncAll a' := by
  induction seq generalizing a with
  | nil =>
      simp only [App.steps] at hsteps
      exact (Option.some.inj hsteps) ▸ h
  | cons p rest ih =>
      obtain ⟨k, now⟩ := p
      simp only [App.steps] at hsteps
      cases hstep : a.step k now with
      | none => rw [hstep] at hsteps; exact Option.noConfusion hsteps
      | some b => rw [hstep] at hsteps; exact ih (syncAll_step h hstep) hsteps

theorem syncInv_completeFirst (l : List Todo) (now : Int) (id : Nat)
    (h : l.all Todo.syncOk = true) :
    (completeFirst now id l).all Todo.syncOk = true := by
  induction l with
  | nil => exact h
  | cons t ts ih =>
      simp only [List.all_cons, Bool.and_eq_true] at h
      simp only [completeFirst]
      split
      · split
        · simp [List.all_cons, h.1, h.2]
        · simp [List.all_cons, h.2, Todo.complete, Todo.syncOk]
      · simp [List.all_cons, h.1, ih h.2]

/-- C3: `completed == completed_at.is_some()` holds for every task after
every operation: tasks are created in sync; every TUI key event — and so
every create / toggle / edit / delete performed through the interactive
session — preserves the invariant store-wide; and the store-level
operations the CLI handlers perform (add, complete, clear, remove) all
preserve it as well. -/
theorem completed_iff_completed_at_invariant :
    (∀ (id : Nat) (d : String) (p : Option Nat) (now : Int),
      (Todo.new id d p now).syncOk = true) ∧
    (∀ (l : TodoList) (seq : List (Key × Int)) (a' : App),
      l.syncInv = true → (App.new l).steps seq = some a' →
      a'.todos.syncInv = true) ∧
    (∀ (l : TodoList) (d : String) (p : Option Nat) (now : Int),
      l.syncInv = true → (l.add_todo d p now).2.syncInv = true) ∧
    (∀ (l l' : TodoList) (id : Nat) (now : Int),
      l.syncInv = true → handle_complete l id now = .ok l' →
      l'.syncInv = true) ∧
    (∀ l : TodoList, l.syncInv = true → (clearCompleted l).syncInv = true) ∧
    (∀ (l : TodoList) (id : Nat),
      l.syncInv = true → (l.remove_todo id).2.syncInv = true) := by
  refine ⟨fun id d p now => rfl, ?_, ?_, ?_, ?_, ?_⟩
  · intro l seq a' h hsteps
    exact syncAll_steps (a := App.new l) h hsteps
  · intro l d p now h
    simp only [TodoList.syncInv, TodoList.add_todo] at h ⊢
    simp [List.all_append, h, Todo.syncOk, Todo.new]
  · intro l l' id now h hok
    unfold handle_complete at hok
    split at hok
    · obtain rfl := Except.ok.inj hok
      exact syncInv_completeFirst l.todos now id h
    · exact Except.noConfusion hok
  · intro l h
    exact all_filter_of_all _ _ _ h
  · intro l id h
    exact all_filter_of_all _ _ _ h

/-- Witness for C3 on a concrete run: toggling the pending task of the
two-task store keeps the two completion fields in sync. -/
theorem completed_iff_completed_at_witness :
    ((App.new exStore).handle_normal_mode .enter 5).todos.syncInv = true :=
  completed_iff_completed_at_invariant.2.1 exStore [(.enter, 5)] _
    (by decide) rfl

/-! ## C4: where description validation actually lives -/

/-- A session on a one-task store, in title-editing mode with the buffer
emptied. -/
def exEditApp : App :=
  { App.new { todos := [Todo.new 1 "x" none 0], next_id := 2 } with
    input_mode := .editing, input := [] }

/-- A session on a one-task store, in title-editing mode with the buffer
holding `X`. -/
def exEditXApp : App :=
  { App.new { todos := [Todo.new 1 "x" none 0], next_id := 2 } with
    input_mode := .editing, input := "X".data, cursor_position := 1 }

/-- A fresh session in insert mode with a whitespace-only buffer. -/
def exInsertBlankApp : App :=
  { App.new TodoList.new with
    input_mode := .insert, input := "   ".data, cursor_position := 3 }

/-- C4 (counterexample): `TodoList::add_todo` accepts the empty
description — the store grows and the empty string is stored — and
committing an edited title over an emptied buffer stores an empty
description as well. -/
theorem add_validation_counterexample :
    (TodoList.new.add_todo "" none 0).2.todos.map (fun t => t.description)
        = [""] ∧
    (TodoList.new.add_todo "" none 0).2.todos.length = 1 ∧
    (exEditApp.step .enter 0).map
        (fun b => b.todos.todos.map (fun t => t.description)) = some [""] := by
  decide

/-- C4 (amended): the store's add operation performs no validation — it
appends unconditionally (empty description included) and returns
`next_id`.  The empty/whitespace-only rejection lives in the CLI handler
`handle_add`, which errors before touching the store; in the TUI,
insert-mode Enter is a no-op on a whitespace-only buffer, but committing
an edited title stores the buffer verbatim, even when it is empty. -/
theorem add_no_validation_amended :
    (∀ (l : TodoList) (d : String) (p : Option Nat) (now : Int),
      (l.add_todo d p now).2.todos.length = l.todos.length + 1 ∧
      (l.add_todo d p now).1 = l.next_id) ∧
    (∀ (l : TodoList) (d : String) (p : Option Nat) (now : Int),
      trimChars d.data = [] →
      handle_add l d p now = .error "Todo description cannot be empty") ∧
    (∀ (a : App) (now : Int),
      a.input_mode = .insert → trimChars a.input = [] →
      a.step .enter now = some a) ∧
    (∀ (a : App) (idx : Nat) (now : Int),
      a.input_mode = .editing → a.selected_index = some idx →
      idx < a.todos.todos.length →
      a.step .enter now = some
        { a with
          todos := { a.todos with
            todos := modifyAt a.todos.todos idx
              (fun t => { t with description := String.mk a.input }) }
          status_message := some "Todo title updated"
          input := []
          cursor_position := 0
          input_mode := .normal }) := by
  refine ⟨?_, ?_, ?_, ?_⟩
  · intro l d p now
    exact ⟨by simp [TodoList.add_todo], rfl⟩
  · intro l d p now h
    unfold handle_add
    rw [if_pos h]
  · intro a now hmode htrim
    simp only [App.step, hmode]
    simp only [App.handle_insert_mode]
    rw [if_pos htrim]
  · intro a idx now hmode hsel hlen
    simp only [App.step, hmode]
    simp only [App.handle_editing_mode, hsel]
    rw [if_pos hlen]

/-- Witness for the amended C4 at concrete inputs: the CLI handler
rejects a blank description, the store's add returns id 1 on a fresh
store, blank insert-mode Enter is a no-op, and committing an edited
title over the buffer `X` stores `X`. -/
theorem add_no_validation_amended_witness :
    handle_add TodoList.new "   " none 0 =
        .error "Todo description cannot be empty" ∧
    (TodoList.new.add_todo "hi" none 0).1 = 1 ∧
    exInsertBlankApp.step .enter 0 = some exInsertBlankApp ∧
    (exEditXApp.step .enter 0).map
        (fun b => b.todos.todos.map (fun t => t.description)) = some ["X"] := by
  refine ⟨add_no_validation_amended.2.1 _ _ _ _ (by decide),
    (add_no_validation_amended.1 TodoList.new "hi" none 0).2,
    add_no_validation_amended.2.2.1 _ _ rfl (by decide), ?_⟩
  rw [add_no_validation_amended.2.2.2 exEditXApp 0 0 rfl rfl (by decide)]
  decide

/-! ## C5 and C10: the `:N` priority shorthand on commit -/

theorem parseCommit_valid_suffix (input : List Char) (pos n : Nat)
    (hcolon : lastColonIdx input = some pos)
    (hparse : parseU8 (trimChars (input.drop (pos + 1))) = some n)
    (h1 : 1 ≤ n) (h5 : n ≤ 5) :
    parseCommit input = (String.mk (trimChars (input.take pos)), some n) := by
  unfold parseCommit
  simp only [hcolon, hparse]
  rw [if_pos ⟨h1, h5⟩]

theorem parseCommit_invalid_suffix (input : List Char) (pos : Nat)
    (hcolon : lastColonIdx input = some pos)
    (hbad : ∀ m, parseU8 (trimChars (input.drop (pos + 1))) = some m →
      ¬(1 ≤ m ∧ m ≤ 5)) :
    parseCommit input = (String.mk input, none) := by
  unfold parseCommit
  simp only [hcolon]
  cases hp : parseU8 (trimChars (input.drop (pos + 1))) with
  | none => rfl
  | some m =>
      simp only []
      rw [if_neg (hbad m hp)]

/-- The Enter branch of insert mode on a non-blank buffer: commits the
description/priority pair `parseCommit` yields, appends via `add_todo`,
selects the appended task and returns to normal mode. -/
theorem insert_commit_eq (a : App) (now : Int)
    (hmode : a.input_mode = .insert) (htrim : trimChars a.input ≠ []) :
    a.step .enter now = some
      { a with
        todos := (a.todos.add_todo (parseCommit a.input).1
          (parseCommit a.input).2 now).2
        status_message := some
          (match (parseCommit a.input).2 with
           | some p => "Added: " ++ (parseCommit a.input).1 ++
               " (priority " ++ toString p ++ ")"
           | none => "Added: " ++ (parseCommit a.input).1)
        input := []
        cursor_position := 0
        input_mode := .normal
        selected_index := some a.todos.todos.length } := by
  simp only [App.step, hmode]
  simp only [App.handle_insert_mode]
  rw [if_neg htrim]
  rw [if_neg (by simp [TodoList.add_todo])]
  have hlen : (a.todos.add_todo (parseCommit a.input).1
      (parseCommit a.input).2 now).2.todos.length - 1 =
      a.todos.todos.length := by
    simp [TodoList.add_todo]
  rw [hlen]

/-- C5: committing a composed input whose trailing `:N` suffix (the part
after the last colon) parses as an integer N in 1–5 stores a task whose
description is the input before that colon (trimmed) and whose priority
is N. -/
theorem commit_priority_suffix_stripped (a : App) (now : Int) (pos n : Nat)
    (hmode : a.input_mode = .insert)
    (htrim : trimChars a.input ≠ [])
    (hcolon : lastColonIdx a.input = some pos)
    (hparse : parseU8 (trimChars (a.input.drop (pos + 1))) = some n)
    (h1 : 1 ≤ n) (h5 : n ≤ 5) :
    a.step .enter now = some
      { a with
        todos := TodoList.mk
          (a.todos.todos ++
            [Todo.new a.todos.next_id
              (String.mk (trimChars (a.input.take pos))) (some n) now])
          (a.todos.next_id + 1)
        status_message := some
          ("Added: " ++ String.mk (trimChars (a.input.take pos)) ++
            " (priority " ++ toString n ++ ")")
        input := []
        cursor_position := 0
        input_mode := .normal
        selected_index := some a.todos.todos.length } := by
  rw [insert_commit_eq a now hmode htrim,
    parseCommit_valid_suffix a.input pos n hcolon hparse h1 h5]
  rfl

/-- C10: when the input holds a colon but the part after the last colon
does not parse as an integer in 1–5, the commit stores the whole input
verbatim — untrimmed, suffix included — with no priority. -/
theorem commit_invalid_suffix_kept_verbatim (a : App) (now : Int) (pos : Nat)
    (hmode : a.input_mode = .insert)
    (htrim : trimChars a.input ≠ [])
    (hcolon : lastColonIdx a.input = some pos)
    (hbad : ∀ m, parseU8 (trimChars (a.input.drop (pos + 1))) = some m →
      ¬(1 ≤ m ∧ m ≤ 5)) :
    a.step .enter now = some
      { a with
        todos := TodoList.mk
          (a.todos.todos ++
            [Todo.new a.todos.next_id (String.mk a.input) none now])
          (a.todos.next_id + 1)
        status_message := some ("Added: " ++ String.mk a.input)
        input := []
        cursor_position := 0
        input_mode := .normal
        selected_index := some a.todos.todos.length } := by
  rw [insert_commit_eq a now hmode htrim,
    parseCommit_invalid_suffix a.input pos hcolon hbad]
  rfl

/-- A fresh session in insert mode with the buffer `Buy milk:4`. -/
def exBuyMilkApp : App :=
  { App.new TodoList.new with
    input_mode := .insert, input := "Buy milk:4".data, cursor_position := 10 }

/-- A fresh session in insert mode with the buffer `Task:9`. -/
def exTask9App : App :=
  { App.new TodoList.new with
    input_mode := .insert, input := "Task:9".data, cursor_position := 6 }

/-- Witness for C5: committing `Buy milk:4` yields the single task
`("Buy milk", priority 4)` and returns to normal mode. -/
theorem commit_priority_suffix_witness :
    (exBuyMilkApp.step .enter 0).map
        (fun b => (b.todos.todos.map (fun t => (t.description, t.priority)),
          b.input_mode, b.selected_index))
      = some ([("Buy milk", some 4)], .normal, some 0) := by
  rw [commit_priority_suffix_stripped exBuyMilkApp 0 8 4 rfl (by decide)
    (by decide) (by decide) (by decide) (by decide)]
  decide

/-- Witness for C10: committing `Task:9` stores the verbatim description
`Task:9` with no priority. -/
theorem commit_invalid_suffix_witness :
    (exTask9App.step .enter 0).map
        (fun b => (b.todos.todos.map (fun t => (t.description, t.priority)),
          b.input_mode))
      = some ([("Task:9", none)], .normal) := by
  have hbad : ∀ m,
      parseU8 (trimChars (exTask9App.input.drop (4 + 1))) = some m →
      ¬(1 ≤ m ∧ m ≤ 5) := by
    intro m hm
    have h9 : parseU8 (trimChars (exTask9App.input.drop (4 + 1))) = some 9 := by
      decide
    rw [h9] at hm
    obtain rfl := Option.some.inj hm
    omega
  rw [commit_invalid_suffix_kept_verbatim exTask9App 0 4 rfl (by decide)
    (by decide) hbad]
  decide

/-! ## C6: unparseable due-date input keeps the mode active -/

/-- C6: in due-date mode with a valid selection, Enter on a buffer whose
trimmed lowercase form is non-empty, not `today`, not `tomorrow`, and
unparseable as a calendar date only sets the error status message: the
mode stays `EditingDueDate`, the buffer, cursor, selection, and the
whole store are left untouched. -/
theorem due_date_invalid_input_keeps_mode (a : App) (now : Int) (idx : Nat)
    (hmode : a.input_mode = .editingDueDate)
    (hsel : a.selected_index = some idx)
    (hlen : idx < a.todos.todos.length)
    (hne : lowerChars (trimChars a.input) ≠ [])
    (hnt : lowerChars (trimChars a.input) ≠ "today".data)
    (hnm : lowerChars (trimChars a.input) ≠ "tomorrow".data)
    (hparse : parseYMD (lowerChars (trimChars a.input)) = none) :
    a.step .enter now = some
      { a with
        status_message := some "Invalid date format. Use YYYY-MM-DD" } := by
  simp only [App.step, hmode]
  simp only [App.handle_due_date_mode, hsel]
  rw [if_pos hlen, if_neg hne, if_neg hnt, if_neg hnm]
  simp only [hparse]
  rw [hmode]

/-- A session on a one-task store, in due-date mode with the unparseable
buffer `soon??`. -/
def exDueApp : App :=
  { App.new { todos := [Todo.new 1 "x" none 0], next_id := 2 } with
    input_mode := .editingDueDate, input := "soon??".data,
    cursor_position := 6 }

/-- Witness for C6: Enter on the buffer `soon??` sets only the error
message, and the resulting state is still in due-date mode. -/
theorem due_date_invalid_input_witness :
    exDueApp.step .enter 0 = some
      { exDueApp with
        status_message := some "Invalid date format. Use YYYY-MM-DD" } ∧
    ({ exDueApp with
        status_message :=
          some "Invalid date format. Use YYYY-MM-DD" } : App).input_mode
      = .editingDueDate :=
  ⟨due_date_invalid_input_keeps_mode exDueApp 0 0 rfl rfl (by decide)
    (by decide) (by decide) (by decide) (by decide), rfl⟩

/-! ## C7: Escape discards without touching the store -/

/-- C7: Escape in any text-entry mode (composing, editing title, editing
details, editing due date) returns to Browsing with the buffer cleared
and every field of every task — the whole store — unchanged. -/
theorem escape_returns_to_browsing_store_unchanged (a : App) (now : Int)
    (hmode : a.input_mode = .insert ∨ a.input_mode = .editing ∨
      a.input_mode = .editingDetails ∨ a.input_mode = .editingDueDate) :
    ∃ a', a.step .esc now = some a' ∧ a'.input_mode = .normal ∧
      a'.todos = a.todos ∧ a'.input = [] := by
  rcases hmode with h | h | h | h
  · simp only [App.step, h]
    simp only [App.handle_insert_mode]
    exact ⟨_, rfl, rfl, rfl, rfl⟩
  · simp only [App.step, h]
    simp only [App.handle_editing_mode]
    exact ⟨_, rfl, rfl, rfl, rfl⟩
  · simp only [App.step, h]
    simp only [App.handle_editing_details_mode]
    exact ⟨_, rfl, rfl, rfl, rfl⟩
  · simp only [App.step, h]
    simp only [App.handle_due_date_mode]
    exact ⟨_, rfl, rfl, rfl, rfl⟩

/-- A one-task store whose task is titled `Old text`. -/
def exOldStore : TodoList :=
  { todos := [Todo.new 1 "Old text" none 0], next_id := 2 }

/-- The session on `exOldStore` right after pressing `e`: title-editing
mode with the buffer pre-populated with `Old text`. -/
def exOldEditApp : App :=
  (App.new exOldStore).handle_normal_mode (.char 'e') 0

/-- Witness for C7: press `e` (pre-populating the buffer with
`Old text`), then Escape — the session is back in normal mode and the
task's description is still `Old text`. -/
theorem escape_discards_witness :
    ((App.new exOldStore).steps [(.char 'e', 0), (.esc, 0)]).map
        (fun b => (b.input_mode, b.todos.todos.map (fun t => t.description)))
      = some (.normal, ["Old text"]) := by
  obtain ⟨a', hstep, hmode', htodos, hinput⟩ :=
    escape_returns_to_browsing_store_unchanged exOldEditApp 0
      (Or.inr (Or.inl rfl))
  have h1 : (App.new exOldStore).steps [(.char 'e', 0), (.esc, 0)] =
      exOldEditApp.steps [(.esc, 0)] := rfl
  have h2 : exOldEditApp.steps [(.esc, 0)] = some a' := by
    simp only [App.steps, hstep]
  rw [h1, h2]
  simp only [Option.map_some']
  rw [hmode', htodos]
  decide

/-! ## C9: the byte cursor versus multi-byte characters -/

/-- A fresh session in insert mode with an empty buffer. -/
def exMultibyteApp : App :=
  { App.new TodoList.new with input_mode := .insert }

/-- C9 (failing input): typing `é` succeeds and leaves the byte cursor
at offset 1 — inside the two-byte character — so typing `a` next hits
`String::insert` off a character boundary and panics (the embedded step
returns `none`). -/
theorem multibyte_cursor_panics :
    (exMultibyteApp.step (.char 'é') 0).map
        (fun b => (b.input, b.cursor_position)) = some (['é'], 1) ∧
    exMultibyteApp.steps [(.char 'é', 0), (.char 'a', 0)] = none := by
  decide

/-! ## C8: what the DueSoon filter actually selects -/

/-- The claim's predicate, written from the spec's words: the due date
lies within the next 24 hours of the current time.  Kept separate from
the source-derived `Todo.is_due_soon` for comparison. -/
def dueWithin24Hours (t : Todo) (now : Int) : Bool :=
  match t.due_date with
  | some d => decide (now ≤ d) && decide (d ≤ now + 86400)
  | none => false

theorem is_due_soon_iff (t : Todo) (now : Int) :
    t.is_due_soon now = true ↔
      t.completed = false ∧
        ∃ d, t.due_date = some d ∧ now ≤ d ∧ d < now + 90000 := by
  unfold Todo.is_due_soon Todo.is_overdue numHours
  cases hc : t.completed with
  | true => simp
  | false =>
      cases hd : t.due_date with
      | none => simp [hd]
      | some d =>
          by_cases hov : d < now
          · simp [hd, hov]
          · have htdiv : (d - now).tdiv 3600 = (d - now) / 3600 :=
              Int.tdiv_eq_ediv (by omega) (by norm_num)
            simp [hd, hov, htdiv]
            omega

/-- C8 (amended): the DueSoon view is the order-preserving restriction
of the store to the tasks that are not completed, not overdue, and
whose whole-hour distance to their due date (duration truncated toward
zero) is at most 24 — that is, due strictly less than 25 hours from
now.  A task due between 24 and 25 hours away is still included. -/
theorem dueSoon_view_characterization (l : TodoList) (now : Int)
    (t : Todo) :
    (t ∈ l.filter_todos .dueSoon now ↔
      t ∈ l.todos ∧ t.completed = false ∧
        ∃ d, t.due_date = some d ∧ now ≤ d ∧ d < now + 90000) ∧
    (l.filter_todos .dueSoon now).Sublist l.todos := by
  constructor
  · rw [TodoList.filter_todos, List.mem_filter]
    exact and_congr_right fun _ => is_due_soon_iff t now
  · exact List.filter_sublist _

/-- A pending task due 24 hours 30 minutes after the epoch. -/
def exSoonTodo : Todo :=
  { Todo.new 1 "t" none 0 with due_date := some 88200 }

/-- A store holding only `exSoonTodo`. -/
def exSoonStore : TodoList :=
  { todos := [exSoonTodo], next_id := 2 }

/-- C8 (counterexample): at `now = 0`, the DueSoon view contains the
pending, non-overdue task due at second 88200 — 24.5 hours away — even
though its due date does not lie within the next 24 hours, because
`is_due_soon` compares the truncated whole-hour count (24) against 24.
The view is therefore not exactly the tasks due within 24 hours. -/
theorem dueSoon_24h_counterexample :
    exSoonStore.filter_todos .dueSoon 0 = [exSoonTodo] ∧
    dueWithin24Hours exSoonTodo 0 = false ∧
    exSoonTodo.completed = false ∧
    exSoonTodo.is_overdue 0 = false := by
  decide

/-- Witness for the amended C8 at a concrete instant and store: the
task due 24.5 hours out satisfies the characterization, hence is in the
DueSoon view. -/
theorem dueSoon_view_witness :
    exSoonTodo ∈ exSoonStore.filter_todos .dueSoon 0 :=
  (dueSoon_view_characterization exSoonStore 0 exSoonTodo).1.mpr
    ⟨by decide, by decide, 88200, by decide, by decide, by decide⟩
